import Mathlib

/-!
Verification of the rt-card-game core: card model, move validator, scoring,
dealing, and the game state machine (`cardGameMachine`), shallowly embedded
from the TypeScript source (`src/utils/cardUtils.ts`, `src/machines/cardGameMachine.ts`,
`src/types/game.ts`).

Modelling conventions:
* machine integers are `Nat` (card points, indices) or `Int` (the countdown
  timer, which external ticks may drive to or below zero);
* `uuidv4()` is modelled by a monotone counter carried in the machine
  configuration: each call returns the current counter value and bumps it
  (ids generated this way are `Nat`; caller-supplied ids stay `String`);
* the random shuffle of `createDeck()` is modelled nondeterministically: the
  freshly created deck is a payload of the `START_GAME` event;
* `Date` timestamps are modelled as `Nat` payloads of the events that stamp them;
* xstate delayed transitions (`after`) are modelled as pseudo-events
  (`AFTER_GAMESTARTING`, `AFTER_WAITING`, `AFTER_GAMEENDING`);
* a JS field access that would throw on `undefined` in an unreachable
  configuration (for example `players[currentPlayerIndex].id` with an
  out-of-range index) is modelled as the event being dropped.
-/

namespace CardGame

/-- `Suit` from `src/types/game.ts`. -/
inductive Suit : Type
  | hearts | diamonds | clubs | spades
deriving DecidableEq

/-- `CardValue` from `src/types/game.ts`: the 13 ranks. -/
inductive CardValue : Type
  | A | n2 | n3 | n4 | n5 | n6 | n7 | n8 | n9 | n10 | J | Q | K
deriving DecidableEq, Fintype

/-- `getCardPoints` from `src/utils/cardUtils.ts` (Ace=1, J=11, Q=12, K=13,
numeric ranks their face value). -/
def getCardPoints : CardValue → Nat
  | .A => 1
  | .J => 11
  | .Q => 12
  | .K => 13
  | .n2 => 2
  | .n3 => 3
  | .n4 => 4
  | .n5 => 5
  | .n6 => 6
  | .n7 => 7
  | .n8 => 8
  | .n9 => 9
  | .n10 => 10

/-- `getCardNumericValue` from `src/utils/cardUtils.ts` (same mapping as
`getCardPoints`). -/
def getCardNumericValue : CardValue → Nat
  | .A => 1
  | .J => 11
  | .Q => 12
  | .K => 13
  | .n2 => 2
  | .n3 => 3
  | .n4 => 4
  | .n5 => 5
  | .n6 => 6
  | .n7 => 7
  | .n8 => 8
  | .n9 => 9
  | .n10 => 10

/-- `Card` from `src/types/game.ts`. -/
structure Card : Type where
  id : String
  suit : Suit
  value : CardValue
  points : Nat
deriving DecidableEq

instance : Inhabited Card := ⟨⟨"", Suit.hearts, CardValue.A, 0⟩⟩

/-- Rank-level core of `canPlayCard`: same rank, numeric successor, or the
Ace-on-King wraparound.  `canPlayCard` in the source reads only the `value`
fields of its two card arguments; this is that function of the two values. -/
def canPlayValue (v topv : CardValue) : Bool :=
  if v = topv then true
  else
    let cardValue := getCardNumericValue v
    let topValue := getCardNumericValue topv
    if cardValue = 1 ∧ topValue = 13 then true
    else if cardValue = topValue + 1 then true
    else false

/-- `canPlayCard` from `src/utils/cardUtils.ts`. -/
def canPlayCard (card topDiscardCard : Card) : Bool :=
  canPlayValue card.value topDiscardCard.value

/-- `getValidCards` from `src/utils/cardUtils.ts`. -/
def getValidCards (hand : List Card) (topDiscardCard : Card) : List Card :=
  hand.filter (fun card => canPlayCard card topDiscardCard)

/-- `calculateHandScore` from `src/utils/cardUtils.ts`: sum of the stored
`points` fields. -/
def calculateHandScore (hand : List Card) : Nat :=
  hand.foldl (fun total card => total + card.points) 0

/-- `canPlayCards` from `src/utils/cardUtils.ts`.  Empty list: false.
Singleton: delegate.  Otherwise: all individually valid; else if all cards
share the first card's value, whether that value is playable; else whether
the numeric values sum to the top card's numeric value. -/
def canPlayCards (cards : List Card) (topDiscardCard : Card) : Bool :=
  match cards with
  | [] => false
  | [c] => canPlayCard c topDiscardCard
  | c0 :: c1 :: cs =>
    let cards := c0 :: c1 :: cs
    let allIndividuallyValid := cards.all (fun card => canPlayCard card topDiscardCard)
    if allIndividuallyValid then true
    else
      let allSameValue := cards.all (fun card => decide (card.value = c0.value))
      if allSameValue then canPlayCard c0 topDiscardCard
      else
        let cardsSum := cards.foldl (fun sum card => sum + getCardNumericValue card.value) 0
        decide (cardsSum = getCardNumericValue topDiscardCard.value)

/-- Helper to build a well-formed card (`points` consistent with rank), used
for concrete test decks. -/
def mkCard (id : String) (s : Suit) (v : CardValue) : Card :=
  ⟨id, s, v, getCardPoints v⟩

/-! ### Dealing (`dealCards` from `src/utils/cardUtils.ts`) -/

/-- One iteration of the inner dealing loop: if cards remain, push the next
deck card onto the hand at `playerIndex` and advance the deck index. -/
def dealStep (deck : List Card) (st : List (List Card) × Nat) (playerIndex : Nat) :
    List (List Card) × Nat :=
  if h : st.2 < deck.length then
    (st.1.set playerIndex (st.1.getD playerIndex [] ++ [deck.get ⟨st.2, h⟩]), st.2 + 1)
  else st

/-- `dealCards` from `src/utils/cardUtils.ts`: round-robin deal of
`cardsPerPlayer` cards (the source defaults this parameter to 7) to
`numPlayers` hands, truncating when the deck is exhausted; returns the hands
and the undealt remainder. -/
def dealCards (deck : List Card) (numPlayers cardsPerPlayer : Nat) :
    List (List Card) × List Card :=
  let playerHands : List (List Card) := List.replicate numPlayers []
  let final := (List.range cardsPerPlayer).foldl
    (fun st _cardNum => (List.range numPlayers).foldl (dealStep deck) st)
    (playerHands, 0)
  (final.1, deck.drop final.2)

/-- The card dealt at global deck position `idx`, or nothing if the deck is
shorter. -/
def slotCard (deck : List Card) (idx : Nat) : List Card :=
  if idx < deck.length then [deck.getD idx default] else []

/-- Closed form for the hand of player `i` after `rounds` rounds of dealing. -/
def dealtTo (deck : List Card) (numPlayers i rounds : Nat) : List Card :=
  ((List.range rounds).filter (fun r => decide (r * numPlayers + i < deck.length))).map
    (fun r => deck.getD (r * numPlayers + i) default)

/-! ### Game state machine (`src/machines/cardGameMachine.ts`, types from
`src/types/game.ts`) -/

/-- `Player` from `src/types/game.ts`. -/
structure Player : Type where
  id : String
  name : String
  hand : List Card
  isCurrentPlayer : Bool
deriving DecidableEq

instance : Inhabited Player := ⟨⟨"", "", [], false⟩⟩

/-- `PlayerScore` from `src/types/game.ts`. -/
structure PlayerScore : Type where
  playerId : String
  playerName : String
  finalScore : Nat
  handCards : List Card
deriving DecidableEq

/-- The two notification kinds of `AutoPlayNotification` in `src/types/game.ts`. -/
inductive NotifType : Type
  | autoPlay | autoSkip
deriving DecidableEq

/-- `AutoPlayNotification` from `src/types/game.ts`.  The `id` is produced by
`uuidv4()` (modelled as a counter value); `timestamp` models the `Date`. -/
structure AutoPlayNotification : Type where
  id : Nat
  playerId : String
  playerName : String
  card : Option Card
  timestamp : Nat
  type : NotifType
deriving DecidableEq

/-- The non-null constructors of `GameEndReason` from `src/types/game.ts`;
the `null` member is modelled by `Option`. -/
inductive GameEndReason : Type
  | timer_expired | no_valid_moves | manual_end | player_won
deriving DecidableEq

/-- `GameContext` from `src/types/game.ts`. -/
structure GameContext : Type where
  players : List Player
  currentPlayerIndex : Nat
  deck : List Card
  discardPile : List Card
  gameTimer : Int
  selectedCards : List Card
  gameId : Nat
  roundStartTime : Option Nat
  finalScores : List PlayerScore
  winner : Option PlayerScore
  autoPlayNotifications : List AutoPlayNotification
  gameEndReason : Option GameEndReason
deriving DecidableEq

/-- `GameState` from `src/types/game.ts`: the state names of the machine. -/
inductive GameState : Type
  | lobby | gameStarting | playerTurn | waitingForTurn | gameEnding | gameOver
deriving DecidableEq

/-- A machine configuration: state name, context, and the uuid supply
counter (model of `uuidv4()`). -/
structure Config : Type where
  state : GameState
  ctx : GameContext
  uuidCtr : Nat
deriving DecidableEq

/-- The machine events.  `START_GAME` carries the deck later created by
`createDeck()` in the `gameStarting` entry (nondeterministic shuffle) and the
`Date` stamp; `SKIP_TURN`/`AUTO_PLAY` carry the `Date` stamp for their
notification; the `AFTER_*` events are the `after`-delayed transitions. -/
inductive GameEvent : Type
  | PLAYER_JOIN (playerId playerName : String)
  | START_GAME (deck : List Card) (now : Nat)
  | AFTER_GAMESTARTING
  | CARD_SELECTED (cardId playerId : String)
  | CARD_DESELECTED (cardId playerId : String)
  | PLAY_CARDS (cards : List Card) (playerId : String)
  | AUTO_PLAY (card : Card) (playerId : String) (now : Nat)
  | SKIP_TURN (now : Nat)
  | TIMER_TICK (remainingTime : Int)
  | END_GAME
  | AFTER_WAITING
  | AFTER_GAMEENDING
  | RESTART_GAME
  | LEAVE_GAME (playerId : String)

/-- `hasAnyValidMoves` from `src/machines/cardGameMachine.ts`. -/
def hasAnyValidMoves (ctx : GameContext) : Bool :=
  match ctx.discardPile.getLast? with
  | none => true
  | some top => ctx.players.any (fun player => decide ((getValidCards player.hand top).length > 0))

/-- `initialContext` from `src/machines/cardGameMachine.ts`, parameterised by
the uuid assigned to `gameId`. -/
def initialContext (gid : Nat) : GameContext :=
  { players := []
    currentPlayerIndex := 0
    deck := []
    discardPile := []
    gameTimer := 180
    selectedCards := []
    gameId := gid
    roundStartTime := none
    finalScores := []
    winner := none
    autoPlayNotifications := []
    gameEndReason := none }

/-- `playerTurn` entry action: clear the selection. -/
def playerTurnEntry (ctx : GameContext) : GameContext :=
  { ctx with selectedCards := [] }

/-- `gameStarting` entry action: install the freshly created deck, stamp the
round start, reset the timer to 180. -/
def gameStartingEntry (deck : List Card) (now : Nat) (ctx : GameContext) : GameContext :=
  { ctx with deck := deck, roundStartTime := some now, gameTimer := 180 }

/-- The action of the 1000ms delayed transition out of `gameStarting`: deal
7 cards to each player round-robin, flip one card as the discard pile, keep
the rest as the draw deck, and make player 0 current. -/
def dealAction (ctx : GameContext) : GameContext :=
  let dealt := dealCards ctx.deck ctx.players.length 7
  let playerHands := dealt.1
  let remainingDeck := dealt.2
  let updatedPlayers := ctx.players.mapIdx (fun index player =>
    { player with hand := playerHands.getD index [], isCurrentPlayer := decide (index = 0) })
  let discardPile := if remainingDeck.length > 0 then [remainingDeck.getD 0 default] else []
  let finalDeck := remainingDeck.drop 1
  { ctx with
    players := updatedPlayers
    deck := finalDeck
    discardPile := discardPile
    currentPlayerIndex := 0 }

/-- The scan loop of the `waitingForTurn` entry action: starting at `idx`,
advance cyclically until a player with a legal card is found or `fuel`
(= `maxAttempts` = number of players) runs out. -/
def advanceGo (players : List Player) (top : Card) : Nat → Nat → Nat
  | idx, 0 => idx
  | idx, fuel + 1 =>
    match players.get? idx with
    | none => idx
    | some player =>
      if (getValidCards player.hand top).length > 0 then idx
      else advanceGo players top ((idx + 1) % players.length) fuel

/-- `waitingForTurn` entry action: pick the next player with valid moves
(cycling through everyone at most once) and mark them current. -/
def waitingForTurnEntry (ctx : GameContext) : GameContext :=
  let start := (ctx.currentPlayerIndex + 1) % ctx.players.length
  let nextPlayerIndex :=
    match ctx.discardPile.getLast? with
    | none => start
    | some top => advanceGo ctx.players top start ctx.players.length
  let updatedPlayers := ctx.players.mapIdx (fun index player =>
    { player with isCurrentPlayer := decide (index = nextPlayerIndex) })
  { ctx with players := updatedPlayers, currentPlayerIndex := nextPlayerIndex }

/-- The score entry built for one player in the `gameEnding` entry action. -/
def mkPlayerScore (p : Player) : PlayerScore :=
  ⟨p.id, p.name, calculateHandScore p.hand, p.hand⟩

/-- One step of the winner `reduce`: keep the accumulator unless the current
entry has a strictly lower final score. -/
def pickLower (lowest current : PlayerScore) : PlayerScore :=
  if current.finalScore < lowest.finalScore then current else lowest

/-- `gameEnding` entry action: compute every player's final score and the
winner.  (The JS `reduce` with no initial value throws on an empty list;
that configuration is unreachable — the round starts only with two or more
players — and is modelled as `winner := none`.) -/
def gameEndingEntry (ctx : GameContext) : GameContext :=
  let finalScores := ctx.players.map mkPlayerScore
  let winner : Option PlayerScore :=
    match finalScores with
    | [] => none
    | x :: xs => some (xs.foldl pickLower x)
  { ctx with finalScores := finalScores, winner := winner }

/-- JS `array.slice(-n)`: the `n` most recent entries. -/
def takeLast {α : Type} (n : Nat) (l : List α) : List α :=
  l.drop (l.length - n)

/-- The auto-skip notification built by the `SKIP_TURN` action. -/
def skipNotification (currentPlayer : Player) (now uuid : Nat) : AutoPlayNotification :=
  ⟨uuid, currentPlayer.id, currentPlayer.name, none, now, NotifType.autoSkip⟩

/-- The auto-play notification built by the `AUTO_PLAY` action. -/
def playNotification (currentPlayer : Player) (card : Card) (now uuid : Nat) :
    AutoPlayNotification :=
  ⟨uuid, currentPlayer.id, currentPlayer.name, some card, now, NotifType.autoPlay⟩

/-- Event handling in the `lobby` state. -/
def stepLobby (cfg : Config) (e : GameEvent) : Config :=
  match e with
  | .PLAYER_JOIN playerId playerName =>
    { cfg with ctx := { cfg.ctx with
        players := cfg.ctx.players ++ [⟨playerId, playerName, [], false⟩] } }
  | .START_GAME deck now =>
    if cfg.ctx.players.length ≥ 2 then
      { cfg with state := .gameStarting, ctx := gameStartingEntry deck now cfg.ctx }
    else cfg
  | _ => cfg

/-- Event handling in the `gameStarting` state (only the delayed deal). -/
def stepGameStarting (cfg : Config) (e : GameEvent) : Config :=
  match e with
  | .AFTER_GAMESTARTING =>
    { cfg with state := .playerTurn, ctx := playerTurnEntry (dealAction cfg.ctx) }
  | _ => cfg

/-- Event handling in the `playerTurn` state. -/
def stepPlayerTurn (cfg : Config) (e : GameEvent) : Config :=
  match e with
  | .END_GAME => { cfg with state := .gameEnding, ctx := gameEndingEntry cfg.ctx }
  | .SKIP_TURN now =>
    match cfg.ctx.players.get? cfg.ctx.currentPlayerIndex with
    | none => cfg
    | some currentPlayer =>
      let notification := skipNotification currentPlayer now cfg.uuidCtr
      let updatedNotifications := takeLast 10 (cfg.ctx.autoPlayNotifications ++ [notification])
      let ctx1 := { cfg.ctx with autoPlayNotifications := updatedNotifications }
      { state := GameState.waitingForTurn
        ctx := waitingForTurnEntry ctx1
        uuidCtr := cfg.uuidCtr + 1 }
  | .CARD_SELECTED cardId playerId =>
    match cfg.ctx.players.get? cfg.ctx.currentPlayerIndex with
    | none => cfg
    | some currentPlayer =>
      if currentPlayer.id = playerId then
        match (cfg.ctx.players.find? (fun p => decide (p.id = playerId))).bind
            (fun p => p.hand.find? (fun c => decide (c.id = cardId))) with
        | some card =>
          if (cfg.ctx.selectedCards.find? (fun c => decide (c.id = card.id))).isNone then
            { cfg with ctx := { cfg.ctx with
                selectedCards := cfg.ctx.selectedCards ++ [card] } }
          else cfg
        | none => cfg
      else cfg
  | .CARD_DESELECTED cardId _playerId =>
    { cfg with ctx := { cfg.ctx with
        selectedCards := cfg.ctx.selectedCards.filter (fun card => decide (¬ card.id = cardId)) } }
  | .PLAY_CARDS cards playerId =>
    match cfg.ctx.players.get? cfg.ctx.currentPlayerIndex with
    | none => cfg
    | some currentPlayer =>
      let guardOk : Bool :=
        decide (currentPlayer.id = playerId) && decide (cards.length > 0) &&
          (match cfg.ctx.discardPile.getLast? with
           | some top => canPlayCards cards top
           | none => false)
      if guardOk then
        let updatedHand := currentPlayer.hand.filter
          (fun card => (cards.find? (fun pc => decide (pc.id = card.id))).isNone)
        let updatedPlayers := cfg.ctx.players.mapIdx (fun index player =>
          { player with
            hand := if index = cfg.ctx.currentPlayerIndex then updatedHand else player.hand
            isCurrentPlayer := false })
        let ctx1 := { cfg.ctx with
          players := updatedPlayers
          discardPile := cfg.ctx.discardPile ++ cards
          selectedCards := [] }
        { state := GameState.waitingForTurn
          ctx := waitingForTurnEntry ctx1
          uuidCtr := cfg.uuidCtr }
      else cfg
  | .AUTO_PLAY card playerId now =>
    match cfg.ctx.players.get? cfg.ctx.currentPlayerIndex with
    | none => cfg
    | some currentPlayer =>
      let guardOk : Bool :=
        decide (currentPlayer.id = playerId) &&
          (match cfg.ctx.discardPile.getLast? with
           | some top => canPlayCards [card] top
           | none => false)
      if guardOk then
        let updatedHand := currentPlayer.hand.filter (fun c => decide (¬ c.id = card.id))
        let updatedPlayers := cfg.ctx.players.mapIdx (fun index player =>
          { player with
            hand := if index = cfg.ctx.currentPlayerIndex then updatedHand else player.hand
            isCurrentPlayer := false })
        let notification := playNotification currentPlayer card now cfg.uuidCtr
        let updatedNotifications := takeLast 10 (cfg.ctx.autoPlayNotifications ++ [notification])
        let ctx1 := { cfg.ctx with
          players := updatedPlayers
          discardPile := cfg.ctx.discardPile ++ [card]
          selectedCards := []
          autoPlayNotifications := updatedNotifications }
        { state := GameState.waitingForTurn
          ctx := waitingForTurnEntry ctx1
          uuidCtr := cfg.uuidCtr + 1 }
      else cfg
  | .TIMER_TICK remainingTime =>
    if remainingTime ≤ 0 then
      { cfg with
        state := GameState.gameEnding
        ctx := gameEndingEntry { cfg.ctx with gameTimer := remainingTime } }
    else { cfg with ctx := { cfg.ctx with gameTimer := remainingTime } }
  | _ => cfg

/-- Event handling in the `waitingForTurn` state. -/
def stepWaitingForTurn (cfg : Config) (e : GameEvent) : Config :=
  match e with
  | .AFTER_WAITING =>
    if hasAnyValidMoves cfg.ctx then
      { cfg with state := .playerTurn, ctx := playerTurnEntry cfg.ctx }
    else { cfg with state := .gameEnding, ctx := gameEndingEntry cfg.ctx }
  | .TIMER_TICK remainingTime =>
    if remainingTime ≤ 0 then
      { cfg with
        state := GameState.gameEnding
        ctx := gameEndingEntry { cfg.ctx with gameTimer := remainingTime } }
    else { cfg with ctx := { cfg.ctx with gameTimer := remainingTime } }
  | _ => cfg

/-- Event handling in the `gameEnding` state (only the delayed transition). -/
def stepGameEnding (cfg : Config) (e : GameEvent) : Config :=
  match e with
  | .AFTER_GAMEENDING => { cfg with state := .gameOver }
  | _ => cfg

/-- Event handling in the `gameOver` state. -/
def stepGameOver (cfg : Config) (e : GameEvent) : Config :=
  match e with
  | .RESTART_GAME =>
    { state := GameState.lobby
      ctx := initialContext cfg.uuidCtr
      uuidCtr := cfg.uuidCtr + 1 }
  | .LEAVE_GAME playerId =>
    { cfg with ctx := { cfg.ctx with
        players := cfg.ctx.players.filter (fun player => decide (¬ player.id = playerId)) } }
  | _ => cfg

/-- One step of the machine: dispatch on the current state; unhandled events
are dropped (xstate semantics). -/
def step (cfg : Config) (e : GameEvent) : Config :=
  match cfg.state with
  | .lobby => stepLobby cfg e
  | .gameStarting => stepGameStarting cfg e
  | .playerTurn => stepPlayerTurn cfg e
  | .waitingForTurn => stepWaitingForTurn cfg e
  | .gameEnding => stepGameEnding cfg e
  | .gameOver => stepGameOver cfg e

/-- The configuration at module load: `lobby`, `initialContext` with the
first generated uuid as `gameId`, counter advanced past it. -/
def initConfig : Config :=
  { state := .lobby, ctx := initialContext 0, uuidCtr := 1 }

/-- Run the machine over a list of events. -/
def run (cfg : Config) (es : List GameEvent) : Config :=
  es.foldl step cfg

/-- A configuration the machine can actually be in. -/
def Reachable (cfg : Config) : Prop :=
  ∃ es : List GameEvent, run initConfig es = cfg

/-- The player at `currentPlayerIndex` (a default dummy if out of range,
which does not happen in reachable play states). -/
def currentPlayerD (ctx : GameContext) : Player :=
  ctx.players.getD ctx.currentPlayerIndex default

/-! ### Concrete decks and traces for witnesses and counterexamples.
A deck produced by `createDeck()` is a uniformly random permutation of the 52
(suit, rank) pairs, so any fixed permutation below is a possible shuffle. -/

def suitStr : Suit → String
  | .hearts => "hearts"
  | .diamonds => "diamonds"
  | .clubs => "clubs"
  | .spades => "spades"

def valStr : CardValue → String
  | .A => "A"
  | .n2 => "2"
  | .n3 => "3"
  | .n4 => "4"
  | .n5 => "5"
  | .n6 => "6"
  | .n7 => "7"
  | .n8 => "8"
  | .n9 => "9"
  | .n10 => "10"
  | .J => "J"
  | .Q => "Q"
  | .K => "K"

def mkSuitCards (s : Suit) (vs : List CardValue) : List Card :=
  vs.map (fun v => mkCard (suitStr s ++ "-" ++ valStr v) s v)

def lowValues : List CardValue :=
  [.A, .n2, .n3, .n4, .n5, .n6, .n7]

def highValues : List CardValue :=
  [.n8, .n9, .n10, .J, .Q, .K]

def allValues : List CardValue :=
  [.A, .n2, .n3, .n4, .n5, .n6, .n7, .n8, .n9, .n10, .J, .Q, .K]

/-- Hearts/diamonds A..7 interleaved: with two players this deals hearts A..7
to player 0 and diamonds A..7 to player 1. -/
def interleavedLow : List Card :=
  (lowValues.map (fun v =>
    [mkCard ("hearts-" ++ valStr v) Suit.hearts v,
     mkCard ("diamonds-" ++ valStr v) Suit.diamonds v])).flatten

/-- A full 52-card deck whose first discard card (position 14) is the 7 of
spades, which the dealt diamonds hand can answer. -/
def deckA : List Card :=
  interleavedLow
    ++ [mkCard "spades-7" Suit.spades CardValue.n7]
    ++ mkSuitCards Suit.hearts highValues
    ++ mkSuitCards Suit.diamonds highValues
    ++ mkSuitCards Suit.clubs allValues
    ++ mkSuitCards Suit.spades [.A, .n2, .n3, .n4, .n5, .n6, .n8, .n9, .n10, .J, .Q, .K]

/-- A full 52-card deck whose first discard card (position 14) is the 9 of
spades, which no dealt card (A..7 of hearts/diamonds) can answer: an
immediate deadlock. -/
def deckB : List Card :=
  interleavedLow
    ++ [mkCard "spades-9" Suit.spades CardValue.n9]
    ++ mkSuitCards Suit.hearts highValues
    ++ mkSuitCards Suit.diamonds highValues
    ++ mkSuitCards Suit.clubs allValues
    ++ mkSuitCards Suit.spades [.A, .n2, .n3, .n4, .n5, .n6, .n7, .n8, .n10, .J, .Q, .K]

/-- Two players join and the round starts and deals, on deck `deckA`. -/
def traceA : List GameEvent :=
  [.PLAYER_JOIN "alice" "Alice", .PLAYER_JOIN "bob" "Bob",
   .START_GAME deckA 0, .AFTER_GAMESTARTING]

/-- Same opening on the deadlocked deck `deckB`. -/
def traceB : List GameEvent :=
  [.PLAYER_JOIN "alice" "Alice", .PLAYER_JOIN "bob" "Bob",
   .START_GAME deckB 0, .AFTER_GAMESTARTING]

/-- A reachable deadlocked `waitingForTurn` configuration: both hands hold
only A..7 while the discard top is a 9, so nobody can move. -/
def deadlockWaitCfg : Config :=
  run initConfig (traceB ++ [GameEvent.SKIP_TURN 0])

/-- A reachable `playerTurn` configuration in which the current player
(alice) has selected a card. -/
def selectedCfg : Config :=
  run initConfig (traceA ++ [GameEvent.CARD_SELECTED "hearts-A" "alice"])

/-- A reachable `waitingForTurn` configuration in which alice's selection
survived her `SKIP_TURN` while the turn advanced to bob. -/
def skipAfterSelectCfg : Config :=
  run initConfig (traceA ++ [GameEvent.CARD_SELECTED "hearts-A" "alice", GameEvent.SKIP_TURN 0])

/-- A two-player context with tied (empty) hands: both score 0. -/
def tieCtx : GameContext :=
  { initialContext 0 with players := [⟨"a", "Ann", [], false⟩, ⟨"b", "Ben", [], false⟩] }

/-- The (amended) selection invariant: in a `playerTurn` configuration whose
player ids are pairwise distinct (the data model requires unique ids), the
selection is a subset of the current player's hand. -/
def SelectionInv (cfg : Config) : Prop :=
  (cfg.ctx.players.map Player.id).Nodup →
  cfg.state = GameState.playerTurn →
  cfg.ctx.selectedCards ⊆ (currentPlayerD cfg.ctx).hand

/-- A reachable `gameOver` configuration. -/
def gameOverCfg : Config :=
  run initConfig (traceA ++ [GameEvent.END_GAME, GameEvent.AFTER_GAMEENDING])

/-- A reachable `playerTurn` configuration on deck `deckA`: alice is current
with hearts A..7, the discard top is the 7 of spades. -/
def playCfgA : Config := run initConfig traceA

/-! ### Lemmas and claim theorems -/

lemma canPlayCard_eq_canPlayValue (c t : Card) :
    canPlayCard c t = canPlayValue c.value t.value := rfl

lemma foldl_add_eq_sum_map (l : List Card) (n : Nat) :
    l.foldl (fun sum card => sum + getCardNumericValue card.value) n
      = n + (l.map (fun card => getCardNumericValue card.value)).sum := by
  induction l generalizing n with
  | nil => simp
  | cons c cs ih => simp [List.foldl_cons, ih, Nat.add_assoc]

/-- C2: `canPlayCard` is true exactly for same rank, numeric successor
(Ace=1 .. King=13 scale), or Ace on King. -/
theorem canPlayCard_spec (card top : Card) :
    canPlayCard card top = true ↔
      (card.value = top.value
        ∨ getCardNumericValue card.value = getCardNumericValue top.value + 1
        ∨ (card.value = CardValue.A ∧ top.value = CardValue.K)) := by
  have h : ∀ v w : CardValue, canPlayValue v w = true ↔
      (v = w ∨ getCardNumericValue v = getCardNumericValue w + 1
        ∨ (v = CardValue.A ∧ w = CardValue.K)) := by decide
  rw [canPlayCard_eq_canPlayValue]
  exact h card.value top.value

/-- C1 (amended): `canPlayCards` is false on the empty list, delegates to
`canPlayCard` for singletons, and for two or more cards is true iff every
card is individually playable, or all cards share the first card's rank and
that rank is playable, or the cards do NOT all share one rank and their
numeric values sum to the top card's numeric value. -/
theorem canPlayCards_spec (cards : List Card) (top : Card) :
    canPlayCards cards top = true ↔
      ((∃ c, cards = [c] ∧ canPlayCard c top = true) ∨
       (∃ c0 c1 cs, cards = c0 :: c1 :: cs ∧
         ((∀ c ∈ cards, canPlayCard c top = true) ∨
          ((∀ c ∈ cards, c.value = c0.value) ∧ canPlayCard c0 top = true) ∨
          ((¬ ∀ c ∈ cards, c.value = c0.value) ∧
            (cards.map (fun c => getCardNumericValue c.value)).sum
              = getCardNumericValue top.value)))) := by
  match cards with
  | [] => simp [canPlayCards]
  | [c] =>
    simp [canPlayCards]
  | c0 :: c1 :: cs =>
    constructor
    · intro h
      refine Or.inr ⟨c0, c1, cs, rfl, ?_⟩
      by_cases hall : ∀ c ∈ c0 :: c1 :: cs, canPlayCard c top = true
      · exact Or.inl hall
      · have hallb : (c0 :: c1 :: cs).all (fun card => canPlayCard card top) = false := by
          rw [Bool.eq_false_iff]
          intro hcontra
          exact hall (by simpa [List.all_eq_true] using hcontra)
        by_cases hsame : ∀ c ∈ c0 :: c1 :: cs, c.value = c0.value
        · have hsameb : (c0 :: c1 :: cs).all (fun card => decide (card.value = c0.value)) = true := by
            simpa [List.all_eq_true] using hsame
          have : canPlayCard c0 top = true := by
            simpa [canPlayCards, hallb, hsameb] using h
          exact Or.inr (Or.inl ⟨hsame, this⟩)
        · have hsameb : (c0 :: c1 :: cs).all (fun card => decide (card.value = c0.value)) = false := by
            rw [Bool.eq_false_iff]
            intro hcontra
            exact hsame (by simpa [List.all_eq_true] using hcontra)
          have hsum : ((c0 :: c1 :: cs).foldl
              (fun sum card => sum + getCardNumericValue card.value) 0)
              = getCardNumericValue top.value := by
            have := h
            simp only [canPlayCards, hallb, hsameb] at this
            simpa using this
          refine Or.inr (Or.inr ⟨hsame, ?_⟩)
          rw [foldl_add_eq_sum_map] at hsum
          simpa using hsum
    · rintro (⟨c, hc, _⟩ | ⟨d0, d1, ds, heq, hcase⟩)
      · exact absurd hc (by simp)
      · simp only [List.cons.injEq] at heq
        obtain ⟨h0, h1, h2⟩ := heq
        rw [← h0] at hcase
        rcases hcase with hall | ⟨hsame, hplay⟩ | ⟨hnsame, hsum⟩
        · have hallb : (c0 :: c1 :: cs).all (fun card => canPlayCard card top) = true := by
            simpa [List.all_eq_true] using hall
          simp [canPlayCards, hallb]
        · -- all cards share the first card's rank, and that rank is playable:
          -- then every card is individually playable, so the first branch fires.
          have hallb : (c0 :: c1 :: cs).all (fun card => canPlayCard card top) = true := by
            rw [List.all_eq_true]
            intro c hc
            have hv := hsame c hc
            rw [canPlayCard_eq_canPlayValue, hv]
            rw [canPlayCard_eq_canPlayValue] at hplay
            exact hplay
          simp [canPlayCards, hallb]
        · have hsameb : (c0 :: c1 :: cs).all (fun card => decide (card.value = c0.value)) = false := by
            rw [Bool.eq_false_iff]
            intro hcontra
            exact hnsame (by simpa [List.all_eq_true] using hcontra)
          by_cases hallb : (c0 :: c1 :: cs).all (fun card => canPlayCard card top) = true
          · simp [canPlayCards, hallb]
          · rw [Bool.not_eq_true] at hallb
            have hfold : ((c0 :: c1 :: cs).foldl
                (fun sum card => sum + getCardNumericValue card.value) 0)
                = getCardNumericValue top.value := by
              rw [foldl_add_eq_sum_map]
              simpa using hsum
            simp [canPlayCards, hallb, hsameb, hfold]

/-- C1 counterexample: two 2s on a 4.  The numeric values sum to the top
card's numeric value (2+2 = 4), yet `canPlayCards` rejects the set, because
the all-same-rank branch returns before the sum rule is ever consulted. -/
theorem canPlayCards_sum_counterexample :
    canPlayCards [mkCard "2s" Suit.spades CardValue.n2,
                  mkCard "2c" Suit.clubs CardValue.n2]
        (mkCard "4d" Suit.diamonds CardValue.n4) = false ∧
    (([mkCard "2s" Suit.spades CardValue.n2,
       mkCard "2c" Suit.clubs CardValue.n2].map
        (fun c => getCardNumericValue c.value)).sum
      = getCardNumericValue (mkCard "4d" Suit.diamonds CardValue.n4).value) ∧
    2 ≤ [mkCard "2s" Suit.spades CardValue.n2,
         mkCard "2c" Suit.clubs CardValue.n2].length := by
  refine ⟨?_, by decide, by decide⟩
  decide

lemma dealtTo_succ (deck : List Card) (numPlayers i k : Nat) :
    dealtTo deck numPlayers i (k + 1)
      = dealtTo deck numPlayers i k ++ slotCard deck (k * numPlayers + i) := by
  unfold dealtTo slotCard
  rw [List.range_succ, List.filter_append, List.map_append]
  congr 1
  by_cases h : k * numPlayers + i < deck.length <;> simp [h]

lemma getD_set {α : Type} (l : List α) (i j : Nat) (v d : α) :
    (l.set i v).getD j d = if j = i ∧ i < l.length then v else l.getD j d := by
  induction l generalizing i j with
  | nil => simp [List.set]
  | cons x xs ih =>
    cases i with
    | zero =>
      cases j with
      | zero => simp
      | succ j => simp
    | succ i =>
      cases j with
      | zero => simp
      | succ j =>
        simp only [List.set, List.getD_cons_succ, ih, List.length_cons]
        by_cases hji : j = i <;> simp [hji, Nat.succ_lt_succ_iff]

lemma getD_replicate {α : Type} (n i : Nat) (c : α) :
    (List.replicate n c).getD i c = c := by
  induction n generalizing i with
  | zero => simp
  | succ n ih =>
    cases i with
    | zero => simp [List.replicate]
    | succ i => simp [List.replicate, ih]

lemma get_eq_getD {α : Type} [Inhabited α] (l : List α) (i : Nat) (h : i < l.length) :
    l.get ⟨i, h⟩ = l.getD i default := by
  rw [List.getD_eq_getElem?_getD, List.getElem?_eq_getElem h]
  rfl

/-- State of the dealing fold after `m` steps of an inner pass that started at
deck position `b` on hands `hands`. -/
lemma innerFold_spec (deck : List Card) (numPlayers b : Nat)
    (hands : List (List Card)) (hlen : hands.length = numPlayers) :
    ∀ m, m ≤ numPlayers →
      ((List.range m).foldl (dealStep deck) (hands, min b deck.length)).2
          = min (b + m) deck.length
      ∧ ((List.range m).foldl (dealStep deck) (hands, min b deck.length)).1.length
          = numPlayers
      ∧ ∀ i, ((List.range m).foldl (dealStep deck) (hands, min b deck.length)).1.getD i []
          = if i < m then hands.getD i [] ++ slotCard deck (b + i) else hands.getD i [] := by
  intro m
  induction m with
  | zero =>
    intro _
    refine ⟨by simp, by simpa using hlen, ?_⟩
    intro i
    simp
  | succ m ih =>
    intro hm
    have hmN : m ≤ numPlayers := Nat.le_of_succ_le hm
    obtain ⟨h2, hL, hD⟩ := ih hmN
    rw [List.range_succ, List.foldl_append, List.foldl_cons, List.foldl_nil]
    revert h2 hL hD
    generalize (List.range m).foldl (dealStep deck) (hands, min b deck.length) = stm
    obtain ⟨H, d⟩ := stm
    intro h2 hL hD
    dsimp only at h2 hL hD
    by_cases hlt : b + m < deck.length
    · have hd : d = b + m := by omega
      subst hd
      have hcond : b + m < deck.length := hlt
      simp only [dealStep, hcond, dif_pos]
      refine ⟨by omega, by simpa using hL, ?_⟩
      intro i
      rw [getD_set]
      by_cases hi : i = m
      · subst hi
        have hii : ¬ i < i := Nat.lt_irrefl i
        have hiN : i < H.length := by rw [hL]; exact Nat.lt_of_succ_le hm
        rw [if_pos ⟨rfl, hiN⟩, if_pos (Nat.lt_succ_self i), hD i, if_neg hii]
        rw [get_eq_getD]
        simp [slotCard, hlt]
      · have hnc : ¬ (i = m ∧ m < H.length) := fun hc => hi hc.1
        rw [if_neg hnc, hD i]
        by_cases him : i < m
        · simp [him, Nat.lt_succ_of_lt him]
        · have : ¬ i < m + 1 := by omega
          simp [him, this]
    · have hcond : ¬ d < deck.length := by omega
      simp only [dealStep, hcond, dif_neg, not_false_iff]
      refine ⟨by omega, hL, ?_⟩
      intro i
      rw [hD i]
      by_cases hi : i = m
      · subst hi
        have h1 : ¬ i < i := Nat.lt_irrefl i
        have hsc : slotCard deck (b + i) = [] := by simp [slotCard, hlt]
        simp [h1, Nat.lt_succ_self, hsc]
      · by_cases him : i < m
        · simp [him, Nat.lt_succ_of_lt him]
        · have : ¬ i < m + 1 := by omega
          simp [him, this]

/-- State of the dealing fold after `k` full rounds. -/
lemma outerFold_spec (deck : List Card) (numPlayers : Nat) : ∀ k,
    ((List.range k).foldl
        (fun st _cardNum => (List.range numPlayers).foldl (dealStep deck) st)
        (List.replicate numPlayers ([] : List Card), 0)).2
      = min (k * numPlayers) deck.length
    ∧ ((List.range k).foldl
        (fun st _cardNum => (List.range numPlayers).foldl (dealStep deck) st)
        (List.replicate numPlayers ([] : List Card), 0)).1.length = numPlayers
    ∧ ∀ i, i < numPlayers →
        ((List.range k).foldl
            (fun st _cardNum => (List.range numPlayers).foldl (dealStep deck) st)
            (List.replicate numPlayers ([] : List Card), 0)).1.getD i []
          = dealtTo deck numPlayers i k := by
  intro k
  induction k with
  | zero =>
    refine ⟨by simp, by simp, ?_⟩
    intro i hi
    simp [dealtTo, getD_replicate]
  | succ k ih =>
    obtain ⟨h2, hL, hD⟩ := ih
    rw [List.range_succ, List.foldl_append, List.foldl_cons, List.foldl_nil]
    set stk := (List.range k).foldl
        (fun st _cardNum => (List.range numPlayers).foldl (dealStep deck) st)
        (List.replicate numPlayers ([] : List Card), 0) with hstk
    have hmin : stk.2 = min (k * numPlayers) deck.length := h2
    have hpair : (stk.1, stk.2) = stk := rfl
    have := innerFold_spec deck numPlayers (k * numPlayers) stk.1 hL numPlayers
      (Nat.le_refl numPlayers)
    rw [← hmin, hpair] at this
    obtain ⟨g2, gL, gD⟩ := this
    refine ⟨?_, gL, ?_⟩
    · rw [g2]
      have : k * numPlayers + numPlayers = (k + 1) * numPlayers := by ring
      rw [this]
    · intro i hi
      rw [gD i, if_pos hi, hD i hi, dealtTo_succ]

/-- Generic preservation of a predicate along a left fold. -/
lemma foldl_preserve {σ α : Type} (P : σ → Prop) {f : σ → α → σ} :
    ∀ (l : List α), (∀ st a, a ∈ l → P st → P (f st a)) → ∀ st, P st → P (l.foldl f st)
  | [], _, _, h => h
  | a :: l, hf, st, h =>
    foldl_preserve P l (fun st x hx => hf st x (List.mem_cons_of_mem a hx))
      (f st a) (hf st a (List.mem_cons_self a l) h)

lemma join_set_append {α : Type} :
    ∀ (l : List (List α)) (i : Nat) (c : α), i < l.length →
      (l.set i (l.getD i [] ++ [c])).flatten.Perm (c :: l.flatten)
  | [], i, c, h => absurd h (by simp)
  | x :: xs, 0, c, _ => by
    simp only [List.set, List.getD_cons_zero, List.flatten_cons]
    have heq : (x ++ [c]) ++ xs.flatten = x ++ (c :: xs.flatten) := by
      rw [List.append_assoc]; rfl
    rw [heq]
    exact List.perm_middle
  | x :: xs, i + 1, c, h => by
    simp only [List.set, List.getD_cons_succ, List.flatten_cons]
    have ih := join_set_append xs i c (by simpa using h)
    exact (ih.append_left x).trans List.perm_middle

/-- The dealing fold conserves cards: the dealt hands always hold exactly the
consumed prefix of the deck (as a multiset). -/
lemma dealFold_perm (deck : List Card) (numPlayers k : Nat) :
    ((List.range k).foldl
        (fun st _cardNum => (List.range numPlayers).foldl (dealStep deck) st)
        (List.replicate numPlayers ([] : List Card), 0)).2 ≤ deck.length
    ∧ ((List.range k).foldl
        (fun st _cardNum => (List.range numPlayers).foldl (dealStep deck) st)
        (List.replicate numPlayers ([] : List Card), 0)).1.flatten.Perm
        (deck.take ((List.range k).foldl
          (fun st _cardNum => (List.range numPlayers).foldl (dealStep deck) st)
          (List.replicate numPlayers ([] : List Card), 0)).2) := by
  have hstep : ∀ (st2 : List (List Card) × Nat) (i : Nat), i ∈ List.range numPlayers →
      (st2.1.length = numPlayers ∧ st2.2 ≤ deck.length
        ∧ st2.1.flatten.Perm (deck.take st2.2)) →
      ((dealStep deck st2 i).1.length = numPlayers ∧ (dealStep deck st2 i).2 ≤ deck.length
        ∧ (dealStep deck st2 i).1.flatten.Perm (deck.take (dealStep deck st2 i).2)) := by
    intro st2 i hi hP2
    obtain ⟨p1, p2, p3⟩ := hP2
    unfold dealStep
    by_cases hc : st2.2 < deck.length
    · rw [dif_pos hc]
      refine ⟨by simpa using p1, by dsimp only; omega, ?_⟩
      have hiN : i < st2.1.length := by rw [p1]; exact List.mem_range.mp hi
      have hjoin := join_set_append st2.1 i (deck.get ⟨st2.2, hc⟩) hiN
      have htake : deck.take (st2.2 + 1) = deck.take st2.2 ++ [deck.get ⟨st2.2, hc⟩] := by
        rw [List.take_succ, List.getElem?_eq_getElem hc]
        rfl
      dsimp only
      rw [htake]
      exact (hjoin.trans (p3.cons _)).trans (List.perm_append_singleton _ _).symm
    · rw [dif_neg hc]
      exact ⟨p1, p2, p3⟩
  have main : ∀ (st : List (List Card) × Nat),
      (st.1.length = numPlayers ∧ st.2 ≤ deck.length ∧ st.1.flatten.Perm (deck.take st.2)) →
      (((List.range k).foldl
          (fun st _cardNum => (List.range numPlayers).foldl (dealStep deck) st) st).1.length
            = numPlayers
        ∧ ((List.range k).foldl
          (fun st _cardNum => (List.range numPlayers).foldl (dealStep deck) st) st).2
            ≤ deck.length
        ∧ ((List.range k).foldl
          (fun st _cardNum => (List.range numPlayers).foldl (dealStep deck) st) st).1.flatten.Perm
            (deck.take ((List.range k).foldl
              (fun st _cardNum => (List.range numPlayers).foldl (dealStep deck) st) st).2)) := by
    intro st hst
    exact foldl_preserve
      (fun st => st.1.length = numPlayers ∧ st.2 ≤ deck.length
        ∧ st.1.flatten.Perm (deck.take st.2))
      (List.range k)
      (fun st1 _a _ha hP =>
        foldl_preserve
          (fun st => st.1.length = numPlayers ∧ st.2 ≤ deck.length
            ∧ st.1.flatten.Perm (deck.take st.2))
          (List.range numPlayers) hstep st1 hP)
      st hst
  have hjoinrep : (List.replicate numPlayers ([] : List Card)).flatten = [] := by
    induction numPlayers with
    | zero => simp
    | succ n ih => simp [List.replicate, ih]
  have init : (List.replicate numPlayers ([] : List Card), (0 : Nat)).1.length = numPlayers
      ∧ (List.replicate numPlayers ([] : List Card), (0 : Nat)).2 ≤ deck.length
      ∧ (List.replicate numPlayers ([] : List Card),
          (0 : Nat)).1.flatten.Perm (deck.take 0) := by
    refine ⟨by simp, by simp, ?_⟩
    simp [hjoinrep]
  have hm := main _ init
  exact ⟨hm.2.1, hm.2.2⟩

/-- C5: dealing yields `numPlayers` hands, each of at most `cardsPerPlayer = 7`
cards; all hands plus the remainder are a permutation of the input deck; and
when the deck is big enough, each hand `i` is exactly
`[deck[i], deck[i+numPlayers], ...]` (7 cards) and the remainder is the deck
without its first `numPlayers * 7` cards. -/
theorem dealCards_spec (deck : List Card) (numPlayers : Nat) :
    (dealCards deck numPlayers 7).1.length = numPlayers
    ∧ (∀ hand ∈ (dealCards deck numPlayers 7).1, hand.length ≤ 7)
    ∧ ((dealCards deck numPlayers 7).1.flatten ++ (dealCards deck numPlayers 7).2).Perm deck
    ∧ (numPlayers * 7 ≤ deck.length →
        (∀ i, i < numPlayers →
          (dealCards deck numPlayers 7).1.getD i []
            = (List.range 7).map (fun r => deck.getD (r * numPlayers + i) default))
        ∧ (∀ hand ∈ (dealCards deck numPlayers 7).1, hand.length = 7)
        ∧ (dealCards deck numPlayers 7).2 = deck.drop (numPlayers * 7)) := by
  obtain ⟨h2, hL, hD⟩ := outerFold_spec deck numPlayers 7
  obtain ⟨hle, hperm⟩ := dealFold_perm deck numPlayers 7
  have hhands : ∀ hand ∈ (dealCards deck numPlayers 7).1,
      ∃ i, i < numPlayers ∧ hand = dealtTo deck numPlayers i 7 := by
    intro hand hmem
    simp only [dealCards] at hmem
    obtain ⟨n, hget⟩ := List.mem_iff_get.mp hmem
    refine ⟨n, ?_, ?_⟩
    · have := n.isLt
      simpa [hL] using this
    · have hlt : (n : Nat) < numPlayers := by
        have := n.isLt
        simpa [hL] using this
      have := hD n hlt
      rw [← hget]
      rw [← this]
      rw [List.getD_eq_getElem?_getD, List.getElem?_eq_getElem n.isLt]
      simp [List.get_eq_getElem]
  refine ⟨by simpa [dealCards] using hL, ?_, ?_, ?_⟩
  · intro hand hmem
    obtain ⟨i, hi, rfl⟩ := hhands hand hmem
    calc (dealtTo deck numPlayers i 7).length
        ≤ (List.range 7).length := by
          unfold dealtTo
          rw [List.length_map]
          exact List.length_filter_le _ _
      _ = 7 := by simp
  · simp only [dealCards]
    have hperm2 := hperm.append_right (deck.drop ((List.range 7).foldl
        (fun st _cardNum => (List.range numPlayers).foldl (dealStep deck) st)
        (List.replicate numPlayers ([] : List Card), 0)).2)
    rw [List.take_append_drop] at hperm2
    exact hperm2
  · intro hbig
    have hall : ∀ r i, r < 7 → i < numPlayers → r * numPlayers + i < deck.length := by
      intro r i hr hi
      have h1 : r * numPlayers + i < 7 * numPlayers := by
        have : r * numPlayers + numPlayers ≤ 7 * numPlayers :=
          by
            have : (r + 1) * numPlayers ≤ 7 * numPlayers :=
              Nat.mul_le_mul_right _ (by omega)
            calc r * numPlayers + numPlayers = (r + 1) * numPlayers := by ring
              _ ≤ 7 * numPlayers := this
        omega
      have h2 : 7 * numPlayers = numPlayers * 7 := by ring
      omega
    have hDT : ∀ i, i < numPlayers → dealtTo deck numPlayers i 7
        = (List.range 7).map (fun r => deck.getD (r * numPlayers + i) default) := by
      intro i hi
      unfold dealtTo
      congr 1
      rw [List.filter_eq_self]
      intro r hr
      have := hall r i (List.mem_range.mp hr) hi
      simpa using this
    refine ⟨?_, ?_, ?_⟩
    · intro i hi
      have := hD i hi
      simp only [dealCards]
      rw [this, hDT i hi]
    · intro hand hmem
      obtain ⟨i, hi, rfl⟩ := hhands hand hmem
      rw [hDT i hi]
      simp
    · simp only [dealCards]
      have : ((List.range 7).foldl
          (fun st _cardNum => (List.range numPlayers).foldl (dealStep deck) st)
          (List.replicate numPlayers ([] : List Card), 0)).2 = numPlayers * 7 := by
        rw [h2]
        have : (7 : Nat) * numPlayers = numPlayers * 7 := by ring
        omega
      rw [this]

/-- C3: in the deadlocked `waitingForTurn` configuration the 500ms delayed
transition does go to `gameEnding` (no `playerTurn` loop), but the machine
never records a `gameEndReason`: the context keeps `none` where the spec,
the context type, the architecture document and the machine's own tests
expect `no_valid_moves` to be set. -/
theorem deadlock_reaches_gameEnding_without_reason :
    deadlockWaitCfg.state = GameState.waitingForTurn
    ∧ hasAnyValidMoves deadlockWaitCfg.ctx = false
    ∧ (step deadlockWaitCfg GameEvent.AFTER_WAITING).state = GameState.gameEnding
    ∧ (step deadlockWaitCfg GameEvent.AFTER_WAITING).state ≠ GameState.playerTurn
    ∧ (step deadlockWaitCfg GameEvent.AFTER_WAITING).ctx.gameEndReason = none := by
  refine ⟨?_, ?_, ?_, ?_, ?_⟩ <;> decide

/-- C6 counterexample: `CARD_DESELECTED` has no current-player guard.  In a
reachable `playerTurn` state where alice is current and has selected the ace
of hearts, a `CARD_DESELECTED` sent by bob (not the current player) removes
the card from `selectedCards`: the event is not a no-op for the context. -/
theorem cardDeselected_wrong_player_mutates :
    selectedCfg.state = GameState.playerTurn
    ∧ (currentPlayerD selectedCfg.ctx).id = "alice"
    ∧ "bob" ≠ (currentPlayerD selectedCfg.ctx).id
    ∧ selectedCfg.ctx.selectedCards ≠ []
    ∧ (step selectedCfg (GameEvent.CARD_DESELECTED "hearts-A" "bob")).ctx.selectedCards = []
    ∧ step selectedCfg (GameEvent.CARD_DESELECTED "hearts-A" "bob") ≠ selectedCfg := by
  refine ⟨?_, ?_, ?_, ?_, ?_, ?_⟩ <;> decide

/-- C7 counterexample: `selectedCards` is not cleared on the turn change
performed by the `waitingForTurn` entry action.  In this reachable
`waitingForTurn` state the turn has advanced to bob, yet alice's selected
ace of hearts is still in `selectedCards` and is not in bob's hand, so the
selection is not a subset of the current player's hand. -/
theorem selection_survives_turn_change :
    skipAfterSelectCfg.state = GameState.waitingForTurn
    ∧ (currentPlayerD skipAfterSelectCfg.ctx).id = "bob"
    ∧ mkCard "hearts-A" Suit.hearts CardValue.A ∈ skipAfterSelectCfg.ctx.selectedCards
    ∧ mkCard "hearts-A" Suit.hearts CardValue.A ∉ (currentPlayerD skipAfterSelectCfg.ctx).hand := by
  refine ⟨?_, ?_, ?_, ?_⟩ <;> decide

/-! ### Machine invariants -/

/-- Any property that holds initially and is preserved by `step` holds in
every reachable configuration. -/
lemma reachable_invariant (P : Config → Prop) (h0 : P initConfig)
    (hs : ∀ cfg e, P cfg → P (step cfg e)) :
    ∀ cfg, Reachable cfg → P cfg := by
  rintro cfg ⟨es, rfl⟩
  exact foldl_preserve P es (fun st a _ha h => hs st a h) initConfig h0

lemma waitingForTurnEntry_notifs (ctx : GameContext) :
    (waitingForTurnEntry ctx).autoPlayNotifications = ctx.autoPlayNotifications := rfl

lemma playerTurnEntry_notifs (ctx : GameContext) :
    (playerTurnEntry ctx).autoPlayNotifications = ctx.autoPlayNotifications := rfl

lemma gameEndingEntry_notifs (ctx : GameContext) :
    (gameEndingEntry ctx).autoPlayNotifications = ctx.autoPlayNotifications := rfl

lemma dealAction_notifs (ctx : GameContext) :
    (dealAction ctx).autoPlayNotifications = ctx.autoPlayNotifications := rfl

lemma gameStartingEntry_notifs (deck : List Card) (now : Nat) (ctx : GameContext) :
    (gameStartingEntry deck now ctx).autoPlayNotifications = ctx.autoPlayNotifications := rfl

lemma takeLast_length_le {α : Type} (n : Nat) (l : List α) :
    (takeLast n l).length ≤ n := by
  simp only [takeLast, List.length_drop]
  omega

/-- Every step keeps the notification log at 10 entries or fewer. -/
lemma step_notifications_le (cfg : Config) (e : GameEvent)
    (h : cfg.ctx.autoPlayNotifications.length ≤ 10) :
    (step cfg e).ctx.autoPlayNotifications.length ≤ 10 := by
  obtain ⟨s, ctx, n⟩ := cfg
  cases s <;> cases e <;>
    simp only [step, stepLobby, stepGameStarting, stepPlayerTurn, stepWaitingForTurn,
      stepGameEnding, stepGameOver] <;>
    (try exact h) <;>
    (repeat' split) <;>
    simp_all [waitingForTurnEntry_notifs, playerTurnEntry_notifs, gameEndingEntry_notifs,
      dealAction_notifs, gameStartingEntry_notifs, initialContext, takeLast_length_le]

/-- C9: in every reachable configuration the notification log holds at most
10 entries, because the only two appending operations — the `SKIP_TURN`
auto-skip and the `AUTO_PLAY` auto-play — append the new notification and
keep only the `slice(-10)` (the 10 most recent, oldest evicted first). -/
theorem notifications_capped :
    (∀ cfg, Reachable cfg → cfg.ctx.autoPlayNotifications.length ≤ 10)
    ∧ (∀ (cfg : Config) (cp : Player) (now : Nat),
        cfg.state = GameState.playerTurn →
        cfg.ctx.players.get? cfg.ctx.currentPlayerIndex = some cp →
        (step cfg (GameEvent.SKIP_TURN now)).ctx.autoPlayNotifications
          = takeLast 10 (cfg.ctx.autoPlayNotifications
              ++ [skipNotification cp now cfg.uuidCtr]))
    ∧ (∀ (cfg : Config) (cp : Player) (card : Card) (pid : String) (now : Nat) (top : Card),
        cfg.state = GameState.playerTurn →
        cfg.ctx.players.get? cfg.ctx.currentPlayerIndex = some cp →
        cp.id = pid →
        cfg.ctx.discardPile.getLast? = some top →
        canPlayCards [card] top = true →
        (step cfg (GameEvent.AUTO_PLAY card pid now)).ctx.autoPlayNotifications
          = takeLast 10 (cfg.ctx.autoPlayNotifications
              ++ [playNotification cp card now cfg.uuidCtr])) := by
  refine ⟨?_, ?_, ?_⟩
  · exact reachable_invariant (fun c => c.ctx.autoPlayNotifications.length ≤ 10)
      (by simp [initConfig, initialContext]) step_notifications_le
  · intro cfg cp now hstate hcp
    rw [List.get?_eq_getElem?] at hcp
    simp [step, hstate, stepPlayerTurn, hcp, waitingForTurnEntry_notifs]
  · intro cfg cp card pid now top hstate hcp hpid htop hplay
    rw [List.get?_eq_getElem?] at hcp
    simp [step, hstate, stepPlayerTurn, hcp, hpid, htop, hplay, waitingForTurnEntry_notifs]

theorem notifications_capped_witness :
    initConfig.ctx.autoPlayNotifications.length ≤ 10
    ∧ (step (run initConfig traceA) (GameEvent.SKIP_TURN 5)).ctx.autoPlayNotifications
        = takeLast 10 ((run initConfig traceA).ctx.autoPlayNotifications
            ++ [skipNotification ((run initConfig traceA).ctx.players.getD 0 default) 5
                  (run initConfig traceA).uuidCtr])
    ∧ (step (run initConfig traceA)
          (GameEvent.AUTO_PLAY (mkCard "ghost" Suit.clubs CardValue.n7) "alice" 5)).ctx.autoPlayNotifications
        = takeLast 10 ((run initConfig traceA).ctx.autoPlayNotifications
            ++ [playNotification ((run initConfig traceA).ctx.players.getD 0 default)
                  (mkCard "ghost" Suit.clubs CardValue.n7) 5 (run initConfig traceA).uuidCtr]) :=
  ⟨notifications_capped.1 initConfig ⟨[], rfl⟩,
   notifications_capped.2.1 (run initConfig traceA)
     ((run initConfig traceA).ctx.players.getD 0 default) 5 (by decide) (by decide),
   notifications_capped.2.2 (run initConfig traceA)
     ((run initConfig traceA).ctx.players.getD 0 default)
     (mkCard "ghost" Suit.clubs CardValue.n7) "alice" 5
     (mkCard "spades-7" Suit.spades CardValue.n7)
     (by decide) (by decide) (by decide) (by decide) (by decide)⟩

lemma waitingForTurnEntry_gameId (ctx : GameContext) :
    (waitingForTurnEntry ctx).gameId = ctx.gameId := rfl

lemma playerTurnEntry_gameId (ctx : GameContext) :
    (playerTurnEntry ctx).gameId = ctx.gameId := rfl

lemma gameEndingEntry_gameId (ctx : GameContext) :
    (gameEndingEntry ctx).gameId = ctx.gameId := rfl

lemma dealAction_gameId (ctx : GameContext) :
    (dealAction ctx).gameId = ctx.gameId := rfl

lemma gameStartingEntry_gameId (deck : List Card) (now : Nat) (ctx : GameContext) :
    (gameStartingEntry deck now ctx).gameId = ctx.gameId := rfl

/-- Every generated `gameId` is below the uuid counter: steps either leave
`gameId` alone (never decreasing the counter) or assign it the fresh counter
value while bumping the counter. -/
lemma step_gameId_lt (cfg : Config) (e : GameEvent)
    (h : cfg.ctx.gameId < cfg.uuidCtr) :
    (step cfg e).ctx.gameId < (step cfg e).uuidCtr := by
  obtain ⟨s, ctx, n⟩ := cfg
  cases s <;> cases e <;>
    simp only [step, stepLobby, stepGameStarting, stepPlayerTurn, stepWaitingForTurn,
      stepGameEnding, stepGameOver] <;>
    (try exact h) <;>
    (repeat' split) <;>
    simp_all [waitingForTurnEntry_gameId, playerTurnEntry_gameId, gameEndingEntry_gameId,
      dealAction_gameId, gameStartingEntry_gameId, initialContext] <;>
    omega

/-- C8: from any reachable `gameOver` configuration, `RESTART_GAME` returns
to the lobby with the fully reset initial context — no players, timer 180,
empty selection, deck, discard pile, scores and notifications, no winner, no
end reason — and a freshly generated game id different from the previous
one. -/
theorem restart_resets (cfg : Config) (hr : Reachable cfg)
    (hs : cfg.state = GameState.gameOver) :
    (step cfg GameEvent.RESTART_GAME).state = GameState.lobby
    ∧ (step cfg GameEvent.RESTART_GAME).ctx.players = []
    ∧ (step cfg GameEvent.RESTART_GAME).ctx.gameTimer = 180
    ∧ (step cfg GameEvent.RESTART_GAME).ctx.selectedCards = []
    ∧ (step cfg GameEvent.RESTART_GAME).ctx.deck = []
    ∧ (step cfg GameEvent.RESTART_GAME).ctx.discardPile = []
    ∧ (step cfg GameEvent.RESTART_GAME).ctx.finalScores = []
    ∧ (step cfg GameEvent.RESTART_GAME).ctx.autoPlayNotifications = []
    ∧ (step cfg GameEvent.RESTART_GAME).ctx.winner = none
    ∧ (step cfg GameEvent.RESTART_GAME).ctx.gameEndReason = none
    ∧ (step cfg GameEvent.RESTART_GAME).ctx.gameId ≠ cfg.ctx.gameId := by
  have hlt : cfg.ctx.gameId < cfg.uuidCtr :=
    reachable_invariant (fun c => c.ctx.gameId < c.uuidCtr) (by decide)
      step_gameId_lt cfg hr
  refine ⟨?_, ?_, ?_, ?_, ?_, ?_, ?_, ?_, ?_, ?_, ?_⟩ <;>
    (simp [step, hs, stepGameOver, initialContext]; try omega)

lemma find?_cons_pos {α : Type} (p : α → Bool) (a : α) (l : List α) (h : p a = true) :
    (a :: l).find? p = some a :=
  List.find?_cons_of_pos l h

lemma find?_cons_neg {α : Type} (p : α → Bool) (a : α) (l : List α) (h : p a = false) :
    (a :: l).find? p = l.find? p :=
  List.find?_cons_of_neg l (by simp [h])

lemma find?_congr_list {α : Type} :
    ∀ (l : List α) (p q : α → Bool), (∀ a ∈ l, p a = q a) → l.find? p = l.find? q
  | [], _, _, _ => rfl
  | a :: l, p, q, h => by
    cases hpa : p a with
    | true =>
      rw [find?_cons_pos p a l hpa, find?_cons_pos q a l ((h a (by simp)).symm.trans hpa)]
    | false =>
      rw [find?_cons_neg p a l hpa, find?_cons_neg q a l ((h a (by simp)).symm.trans hpa)]
      exact find?_congr_list l p q (fun x hx => h x (List.mem_cons_of_mem a hx))

/-- The JS `reduce` used to pick the winner returns exactly the first entry
whose final score is minimal over the whole list. -/
lemma foldl_pickLower_eq_find? :
    ∀ (xs : List PlayerScore) (x : PlayerScore),
      (x :: xs).find? (fun s => decide (∀ t ∈ x :: xs, s.finalScore ≤ t.finalScore))
        = some (xs.foldl pickLower x) := by
  intro xs
  induction xs with
  | nil =>
    intro x
    rw [find?_cons_pos (fun s => decide (∀ t ∈ [x], s.finalScore ≤ t.finalScore)) x []
      (by simp)]
    rfl
  | cons y ys ih =>
    intro x
    rw [List.foldl_cons]
    by_cases hxy : y.finalScore < x.finalScore
    · have hpick : pickLower x y = y := if_pos hxy
      rw [hpick]
      have hPx : decide (∀ t ∈ x :: y :: ys, x.finalScore ≤ t.finalScore) = false := by
        simp only [decide_eq_false_iff_not]
        intro hall
        have := hall y (by simp)
        omega
      rw [find?_cons_neg
        (fun s => decide (∀ t ∈ x :: y :: ys, s.finalScore ≤ t.finalScore)) x (y :: ys) hPx]
      rw [find?_congr_list (y :: ys) _
        (fun s => decide (∀ t ∈ y :: ys, s.finalScore ≤ t.finalScore)) ?_]
      · exact ih y
      · intro a ha
        rw [decide_eq_decide]
        constructor
        · intro hall t ht
          exact hall t (List.mem_cons_of_mem x ht)
        · intro hsmall t ht
          rcases List.mem_cons.mp ht with rfl | ht2
          · have := hsmall y (by simp)
            omega
          · exact hsmall t ht2
    · have hpick : pickLower x y = x := if_neg hxy
      rw [hpick]
      have ihx := ih x
      by_cases hx : ∀ t ∈ x :: ys, x.finalScore ≤ t.finalScore
      · have hPbigx : decide (∀ t ∈ x :: y :: ys, x.finalScore ≤ t.finalScore) = true := by
          simp only [decide_eq_true_eq]
          intro t ht
          rcases List.mem_cons.mp ht with rfl | ht2
          · omega
          · rcases List.mem_cons.mp ht2 with rfl | ht3
            · omega
            · exact hx t (List.mem_cons_of_mem x ht3)
        rw [find?_cons_pos
          (fun s => decide (∀ t ∈ x :: y :: ys, s.finalScore ≤ t.finalScore)) x (y :: ys)
          hPbigx]
        have h1 : some (ys.foldl pickLower x) = some x := by
          rw [← ihx, find?_cons_pos
            (fun s => decide (∀ t ∈ x :: ys, s.finalScore ≤ t.finalScore)) x ys
            (by simpa using hx)]
        exact h1.symm
      · have hPmidx : decide (∀ t ∈ x :: ys, x.finalScore ≤ t.finalScore) = false := by
          simp only [decide_eq_false_iff_not]
          exact hx
        have hPbigx : decide (∀ t ∈ x :: y :: ys, x.finalScore ≤ t.finalScore) = false := by
          simp only [decide_eq_false_iff_not]
          intro hall
          apply hx
          intro t ht
          rcases List.mem_cons.mp ht with rfl | ht2
          · omega
          · exact hall t (List.mem_cons_of_mem x (List.mem_cons_of_mem y ht2))
        have hPbigy : decide (∀ t ∈ x :: y :: ys, y.finalScore ≤ t.finalScore) = false := by
          simp only [decide_eq_false_iff_not]
          intro hall
          apply hx
          have hyx : y.finalScore ≤ x.finalScore := hall x (by simp)
          intro t ht
          rcases List.mem_cons.mp ht with rfl | ht2
          · omega
          · have := hall t (List.mem_cons_of_mem x (List.mem_cons_of_mem y ht2))
            omega
        rw [find?_cons_neg
          (fun s => decide (∀ t ∈ x :: y :: ys, s.finalScore ≤ t.finalScore)) x (y :: ys)
          hPbigx]
        rw [find?_cons_neg
          (fun s => decide (∀ t ∈ x :: y :: ys, s.finalScore ≤ t.finalScore)) y ys hPbigy]
        rw [find?_cons_neg
          (fun s => decide (∀ t ∈ x :: ys, s.finalScore ≤ t.finalScore)) x ys hPmidx] at ihx
        rw [find?_congr_list ys _
          (fun s => decide (∀ t ∈ x :: ys, s.finalScore ≤ t.finalScore)) ?_]
        · exact ihx
        · intro a ha
          rw [decide_eq_decide]
          constructor
          · intro hall t ht
            rcases List.mem_cons.mp ht with rfl | ht2
            · exact hall t (by simp)
            · exact hall t (List.mem_cons_of_mem x (List.mem_cons_of_mem y ht2))
          · intro hmid t ht
            rcases List.mem_cons.mp ht with rfl | ht2
            · exact hmid t (by simp)
            · rcases List.mem_cons.mp ht2 with rfl | ht3
              · have := hmid x (by simp)
                omega
              · exact hmid t (List.mem_cons_of_mem x ht3)

/-- C4: entering `gameEnding` fills `finalScores` with one entry per player
in player order — each `finalScore` being `calculateHandScore` of that
player's hand — and sets `winner` to the first entry whose final score is
minimal (strictly-lowest score, first player in registration order on a
tie). -/
theorem gameEnding_scores_and_winner (ctx : GameContext) (h : ctx.players ≠ []) :
    (gameEndingEntry ctx).finalScores = ctx.players.map mkPlayerScore
    ∧ (gameEndingEntry ctx).winner
        = (ctx.players.map mkPlayerScore).find?
            (fun s => decide (∀ t ∈ ctx.players.map mkPlayerScore,
              s.finalScore ≤ t.finalScore)) := by
  refine ⟨rfl, ?_⟩
  have hw : (gameEndingEntry ctx).winner
      = match ctx.players.map mkPlayerScore with
        | [] => none
        | x :: xs => some (xs.foldl pickLower x) := rfl
  rw [hw]
  cases hps : ctx.players with
  | nil => exact absurd hps h
  | cons p ps =>
    rw [List.map_cons]
    exact (foldl_pickLower_eq_find? (ps.map mkPlayerScore) (mkPlayerScore p)).symm

theorem gameEnding_scores_and_winner_witness :
    (gameEndingEntry tieCtx).finalScores = tieCtx.players.map mkPlayerScore
    ∧ (gameEndingEntry tieCtx).winner
        = (tieCtx.players.map mkPlayerScore).find?
            (fun s => decide (∀ t ∈ tieCtx.players.map mkPlayerScore,
              s.finalScore ≤ t.finalScore)) :=
  gameEnding_scores_and_winner tieCtx (by decide)

theorem dealCards_spec_witness :
    (dealCards deckA 2 7).1.length = 2
    ∧ ((dealCards deckA 2 7).1.flatten ++ (dealCards deckA 2 7).2).Perm deckA
    ∧ 2 * 7 ≤ deckA.length
    ∧ (dealCards deckA 2 7).2 = deckA.drop (2 * 7)
    ∧ (∀ hand ∈ (dealCards deckA 2 7).1, hand.length = 7) :=
  ⟨(dealCards_spec deckA 2).1,
   (dealCards_spec deckA 2).2.2.1,
   by decide,
   ((dealCards_spec deckA 2).2.2.2 (by decide)).2.2,
   ((dealCards_spec deckA 2).2.2.2 (by decide)).2.1⟩

lemma selectionInv_of_state_ne (cfg : Config)
    (hne : cfg.state ≠ GameState.playerTurn) : SelectionInv cfg :=
  fun _ hstate => absurd hstate hne

lemma selectionInv_of_selected_nil (cfg : Config)
    (hnil : cfg.ctx.selectedCards = []) : SelectionInv cfg :=
  fun _ _ => by rw [hnil]; exact List.nil_subset _

lemma step_preserves_selectionInv (cfg : Config) (e : GameEvent)
    (h : SelectionInv cfg) : SelectionInv (step cfg e) := by
  obtain ⟨s, ctx, n⟩ := cfg
  cases s with
  | lobby =>
    cases e <;> try exact h
    case PLAYER_JOIN pid pname =>
      exact selectionInv_of_state_ne _ (by simp [step, stepLobby])
    case START_GAME deck now =>
      refine selectionInv_of_state_ne _ ?_
      simp only [step, stepLobby]
      split <;> simp
  | gameStarting =>
    cases e <;> try exact h
    case AFTER_GAMESTARTING =>
      exact selectionInv_of_selected_nil _ rfl
  | playerTurn =>
    cases e <;> try exact h
    case END_GAME =>
      exact selectionInv_of_state_ne _ (by simp [step, stepPlayerTurn])
    case SKIP_TURN now =>
      simp only [step, stepPlayerTurn]
      rcases hcp : ctx.players.get? ctx.currentPlayerIndex with _ | cp
      · simp only [hcp]
        exact h
      · simp only [hcp]
        exact selectionInv_of_state_ne _ (by simp)
    case CARD_SELECTED cardId pid =>
      simp only [step, stepPlayerTurn]
      rcases hcp : ctx.players.get? ctx.currentPlayerIndex with _ | cp
      · simp only [hcp]
        exact h
      · simp only [hcp]
        by_cases hid : cp.id = pid
        · rw [if_pos hid]
          rcases hbind : (ctx.players.find? (fun p => decide (p.id = pid))).bind
              (fun p => p.hand.find? (fun c => decide (c.id = cardId))) with _ | card
          · simp only [hbind]
            exact h
          · simp only [hbind]
            split
            · intro hids hstate c hc
              have hids2 : (ctx.players.map Player.id).Nodup := hids
              have hcur : currentPlayerD ctx = cp := by
                unfold currentPlayerD
                rw [List.getD_eq_getElem?_getD, ← List.get?_eq_getElem?, hcp]
                rfl
              rcases List.mem_append.mp hc with hc1 | hc1
              · exact h hids2 rfl hc1
              · have hcc : c = card := by simpa using hc1
                subst hcc
                obtain ⟨p0, hp0, hcard⟩ := Option.bind_eq_some.mp hbind
                have hp0mem : p0 ∈ ctx.players := List.mem_of_find?_eq_some hp0
                have hp0id : p0.id = pid := by
                  have := List.find?_some hp0
                  simpa using this
                have hcpmem : cp ∈ ctx.players := List.get?_mem hcp
                have hpeq : p0 = cp :=
                  List.inj_on_of_nodup_map hids2 hp0mem hcpmem (hp0id.trans hid.symm)
                show c ∈ (currentPlayerD ctx).hand
                rw [hcur, ← hpeq]
                exact List.mem_of_find?_eq_some hcard
            · exact h
        · rw [if_neg hid]
          exact h
    case CARD_DESELECTED cardId pid =>
      simp only [step, stepPlayerTurn]
      intro hids hstate c hc
      exact h hids rfl (List.mem_of_mem_filter hc)
    case PLAY_CARDS cards pid =>
      simp only [step, stepPlayerTurn]
      rcases hcp : ctx.players.get? ctx.currentPlayerIndex with _ | cp
      · simp only [hcp]
        exact h
      · simp only [hcp]
        split
        · exact selectionInv_of_state_ne _ (by simp)
        · exact h
    case AUTO_PLAY card pid now =>
      simp only [step, stepPlayerTurn]
      rcases hcp : ctx.players.get? ctx.currentPlayerIndex with _ | cp
      · simp only [hcp]
        exact h
      · simp only [hcp]
        split
        · exact selectionInv_of_state_ne _ (by simp)
        · exact h
    case TIMER_TICK r =>
      simp only [step, stepPlayerTurn]
      split
      · exact selectionInv_of_state_ne _ (by simp)
      · intro hids hstate c hc
        exact h hids rfl hc
  | waitingForTurn =>
    cases e <;> try exact h
    case AFTER_WAITING =>
      simp only [step, stepWaitingForTurn]
      split
      · exact selectionInv_of_selected_nil _ rfl
      · exact selectionInv_of_state_ne _ (by simp)
    case TIMER_TICK r =>
      simp only [step, stepWaitingForTurn]
      split
      · exact selectionInv_of_state_ne _ (by simp)
      · exact selectionInv_of_state_ne _ (by simp)
  | gameEnding =>
    cases e <;> try exact h
    case AFTER_GAMEENDING =>
      exact selectionInv_of_state_ne _ (by simp [step, stepGameEnding])
  | gameOver =>
    cases e <;> try exact h
    case RESTART_GAME =>
      exact selectionInv_of_state_ne _ (by simp [step, stepGameOver])
    case LEAVE_GAME pid =>
      exact selectionInv_of_state_ne _ (by simp [step, stepGameOver])

/-- C7 (amended): the selection is cleared on entry to every `playerTurn`
and on every successful play, so in every reachable `playerTurn`
configuration with pairwise-distinct player ids the selection is a subset of
the current player's hand.  (It is NOT cleared at the moment of the turn
change inside `waitingForTurn`: a selection made before a skip survives
there until `playerTurn` is re-entered, see the counterexample.) -/
theorem selectedCards_subset_current_hand (cfg : Config) (hr : Reachable cfg)
    (hids : (cfg.ctx.players.map Player.id).Nodup)
    (hstate : cfg.state = GameState.playerTurn) :
    cfg.ctx.selectedCards ⊆ (currentPlayerD cfg.ctx).hand :=
  reachable_invariant SelectionInv
    (fun _ hst => absurd hst (by decide))
    step_preserves_selectionInv cfg hr hids hstate

theorem selectedCards_subset_current_hand_witness :
    selectedCfg.ctx.selectedCards ⊆ (currentPlayerD selectedCfg.ctx).hand :=
  selectedCards_subset_current_hand selectedCfg
    ⟨traceA ++ [GameEvent.CARD_SELECTED "hearts-A" "alice"], rfl⟩
    (by decide) (by decide)

lemma waitingForTurnEntry_discard (ctx : GameContext) :
    (waitingForTurnEntry ctx).discardPile = ctx.discardPile := rfl

/-- A `mapIdx` whose function preserves each present element's hand
preserves the list of hands. -/
lemma mapIdx_map_hand :
    ∀ (l : List Player) (f : Nat → Player → Player),
      (∀ i p, l.get? i = some p → (f i p).hand = p.hand) →
      (l.mapIdx f).map Player.hand = l.map Player.hand
  | [], _, _ => by simp
  | a :: as, f, hf => by
    rw [List.mapIdx_cons, List.map_cons, List.map_cons]
    rw [hf 0 a (by simp), mapIdx_map_hand as (fun i => f (i + 1))
      (fun i p hp => hf (i + 1) p (by simpa using hp))]

lemma waitingForTurnEntry_map_hand (ctx : GameContext) :
    (waitingForTurnEntry ctx).players.map Player.hand = ctx.players.map Player.hand := by
  unfold waitingForTurnEntry
  exact mapIdx_map_hand ctx.players _ (fun i p _ => rfl)

/-- C10: in `playerTurn`, an `AUTO_PLAY` from the current player whose card
is legal on the discard top is accepted even when that card is not in the
player's hand (the guard never checks membership): the machine moves to
`waitingForTurn`, appends the event's card to the discard pile, and leaves
every hand unchanged — so the discard pile can gain a card that was never
dealt to any hand. -/
theorem autoPlay_accepts_foreign_card (cfg : Config) (cp : Player) (card : Card)
    (pid : String) (now : Nat) (top : Card)
    (hstate : cfg.state = GameState.playerTurn)
    (hcp : cfg.ctx.players.get? cfg.ctx.currentPlayerIndex = some cp)
    (hpid : cp.id = pid)
    (htop : cfg.ctx.discardPile.getLast? = some top)
    (hplay : canPlayCards [card] top = true)
    (hforeign : ∀ c ∈ cp.hand, c.id ≠ card.id) :
    (step cfg (GameEvent.AUTO_PLAY card pid now)).state = GameState.waitingForTurn
    ∧ (step cfg (GameEvent.AUTO_PLAY card pid now)).ctx.discardPile
        = cfg.ctx.discardPile ++ [card]
    ∧ (step cfg (GameEvent.AUTO_PLAY card pid now)).ctx.players.map Player.hand
        = cfg.ctx.players.map Player.hand := by
  have hcpE := hcp
  rw [List.get?_eq_getElem?] at hcpE
  have hfilter : cp.hand.filter (fun c => !decide (c.id = card.id)) = cp.hand := by
    rw [List.filter_eq_self]
    intro a ha
    simpa using hforeign a ha
  refine ⟨?_, ?_, ?_⟩
  · simp [step, hstate, stepPlayerTurn, hcpE, hpid, htop, hplay]
  · simp [step, hstate, stepPlayerTurn, hcpE, hpid, htop, hplay, waitingForTurnEntry_discard]
  · simp only [step, hstate, stepPlayerTurn, hcp, htop, hplay]
    rw [if_pos (by simp [hpid])]
    rw [waitingForTurnEntry_map_hand]
    refine mapIdx_map_hand cfg.ctx.players _ ?_
    intro i p hp
    by_cases hi : i = cfg.ctx.currentPlayerIndex
    · subst hi
      rw [List.get?_eq_getElem?] at hp
      rw [hcpE] at hp
      cases hp
      simp [hfilter]
    · simp [hi]

theorem autoPlay_accepts_foreign_card_witness :
    (step playCfgA
        (GameEvent.AUTO_PLAY (mkCard "ghost" Suit.clubs CardValue.n7) "alice" 0)).state
        = GameState.waitingForTurn
    ∧ (step playCfgA
        (GameEvent.AUTO_PLAY (mkCard "ghost" Suit.clubs CardValue.n7) "alice" 0)).ctx.discardPile
        = playCfgA.ctx.discardPile ++ [mkCard "ghost" Suit.clubs CardValue.n7]
    ∧ (step playCfgA
        (GameEvent.AUTO_PLAY (mkCard "ghost" Suit.clubs CardValue.n7) "alice" 0)).ctx.players.map
        Player.hand = playCfgA.ctx.players.map Player.hand :=
  autoPlay_accepts_foreign_card playCfgA (playCfgA.ctx.players.getD 0 default)
    (mkCard "ghost" Suit.clubs CardValue.n7) "alice" 0
    (mkCard "spades-7" Suit.spades CardValue.n7)
    (by decide) (by decide) (by decide) (by decide) (by decide) (by decide)

/-- C6 (amended): in `playerTurn`, the guarded card actions `CARD_SELECTED`,
`PLAY_CARDS` and `AUTO_PLAY` from a sender who is not the current player are
silent no-ops (state and context unchanged); `CARD_DESELECTED`, however,
carries no current-player guard and is applied whoever sends it. -/
theorem wrong_player_card_actions_noop (cfg : Config) (cp : Player) (pid : String)
    (hstate : cfg.state = GameState.playerTurn)
    (hcp : cfg.ctx.players.get? cfg.ctx.currentPlayerIndex = some cp)
    (hpid : cp.id ≠ pid) :
    (∀ cardId, step cfg (GameEvent.CARD_SELECTED cardId pid) = cfg)
    ∧ (∀ cards, step cfg (GameEvent.PLAY_CARDS cards pid) = cfg)
    ∧ (∀ card now, step cfg (GameEvent.AUTO_PLAY card pid now) = cfg) := by
  rw [List.get?_eq_getElem?] at hcp
  refine ⟨?_, ?_, ?_⟩
  · intro cardId
    simp [step, hstate, stepPlayerTurn, hcp, hpid]
  · intro cards
    simp [step, hstate, stepPlayerTurn, hcp, hpid]
  · intro card now
    simp [step, hstate, stepPlayerTurn, hcp, hpid]

theorem wrong_player_card_actions_noop_witness :
    step playCfgA (GameEvent.CARD_SELECTED "hearts-A" "bob") = playCfgA
    ∧ step playCfgA (GameEvent.PLAY_CARDS [mkCard "hearts-A" Suit.hearts CardValue.A] "bob")
        = playCfgA
    ∧ step playCfgA
        (GameEvent.AUTO_PLAY (mkCard "hearts-A" Suit.hearts CardValue.A) "bob" 0) = playCfgA :=
  ⟨(wrong_player_card_actions_noop playCfgA (playCfgA.ctx.players.getD 0 default) "bob"
      (by decide) (by decide) (by decide)).1 "hearts-A",
   (wrong_player_card_actions_noop playCfgA (playCfgA.ctx.players.getD 0 default) "bob"
      (by decide) (by decide) (by decide)).2.1 [mkCard "hearts-A" Suit.hearts CardValue.A],
   (wrong_player_card_actions_noop playCfgA (playCfgA.ctx.players.getD 0 default) "bob"
      (by decide) (by decide) (by decide)).2.2 (mkCard "hearts-A" Suit.hearts CardValue.A) 0⟩

theorem restart_resets_witness :
    (step gameOverCfg GameEvent.RESTART_GAME).state = GameState.lobby
    ∧ (step gameOverCfg GameEvent.RESTART_GAME).ctx.players = []
    ∧ (step gameOverCfg GameEvent.RESTART_GAME).ctx.gameTimer = 180
    ∧ (step gameOverCfg GameEvent.RESTART_GAME).ctx.selectedCards = []
    ∧ (step gameOverCfg GameEvent.RESTART_GAME).ctx.deck = []
    ∧ (step gameOverCfg GameEvent.RESTART_GAME).ctx.discardPile = []
    ∧ (step gameOverCfg GameEvent.RESTART_GAME).ctx.finalScores = []
    ∧ (step gameOverCfg GameEvent.RESTART_GAME).ctx.autoPlayNotifications = []
    ∧ (step gameOverCfg GameEvent.RESTART_GAME).ctx.winner = none
    ∧ (step gameOverCfg GameEvent.RESTART_GAME).ctx.gameEndReason = none
    ∧ (step gameOverCfg GameEvent.RESTART_GAME).ctx.gameId ≠ gameOverCfg.ctx.gameId :=
  restart_resets gameOverCfg
    ⟨traceA ++ [GameEvent.END_GAME, GameEvent.AFTER_GAMEENDING], rfl⟩ (by decide)

end CardGame

